import Mathlib

/-!
Verification of the `ponder` compilation pipeline (`src/ponder/ponder.py`,
class `Ponder`).  The Python code is shallowly embedded: the operation
records appended by the authoring API become an inductive type, the
grouping dict built by `Ponder.compile` (lines 159-166) becomes an
insertion-ordered association list, the scheduling chain (lines 173-181)
becomes a list of directive strings, and the file-system side effects of
`compile` (mkdir / write_text / make_archive / rmtree) become an explicit
event trace.  The compiled `(time, command)` pairs returned by
`compile_operations` (a collaborator outside this file's scope) are an
abstract input of the model.  Python `int` is embedded as `Int` (its `%`
on a positive literal agrees with `Int.emod`), Python dicts keep insertion
order, and `'\n'.join` becomes `joinLines`.
-/

/-! Decimal rendering of integers.

`Ponder.compile` embeds bucket times in file names and in `schedule`
directives through Python's `str()`.  Lean's `toString : Int → String`
renders the same decimal text.  `natDigits` is a proof-side recursion
computing the most-significant-first digit list that `Nat.toDigitsCore`
produces; it lets us prove the rendering injective, which the uniqueness
claims about the scheduler chain need. -/

/-- Most-significant-first decimal digits of a natural number. -/
def natDigits (n : Nat) : List Nat :=
  if n < 10 then [n] else natDigits (n / 10) ++ [n % 10]
decreasing_by exact Nat.div_lt_self (by omega) (by omega)

/-! The operation log: `Ponder.__init__`, `block`, `remove`, `text`,
`entity`, `command` (lines 13-107).

Each authoring method appends one typed record to `self.commands`.  The
`state`/`nbt` dictionaries and the `rotation` list only matter to the
external command compiler, so their values are embedded as ordered
key-value string pairs and integer lists. -/

/-- One record of `Ponder.commands`: the dict appended by the authoring
methods `block`, `remove`, `text`, `entity` and `command`. -/
inductive Operation where
  | place (time : Int) (pos : Int × Int × Int) (block : String)
      (state : List (String × String)) (nbt : List (String × String))
  | remove (time : Int) (pos : Int × Int × Int) (anim : String)
  | text (time : Int) (pos : Int × Int × Int) (text : String)
      (duration : Int) (rot : List Int)
  | entity (time : Int) (pos : Int × Int × Int) (name : String)
      (nbt : List (String × String))
  | command (time : Int) (command : String)
deriving DecidableEq

/-- Severity of a logger call in `ponder.py`. -/
inductive LogLevel where
  | debug
  | info
  | warning
  | critical
deriving DecidableEq

/-- The state `Ponder.__init__` leaves behind: the stored side length and
the (empty) command list. -/
structure PonderState where
  size : Int
  commands : List Operation
deriving DecidableEq

/-- The critical message of `Ponder.__init__` (line 20). -/
def sizeCriticalMsg : String := "初始化思索失败: 边长超过7的大型棋盘格尺寸应为3的倍数"

/-- Model of `Ponder.__init__(size)` (lines 13-23): logs one critical message when
`size > 8 and size % 3 != 0`, never raises, and always stores `size` and
an empty command list.  The embedding returns the emitted log records
together with the constructed state; its totality models the absence of
any raised exception. -/
def ponderInit (size : Int) : List (LogLevel × String) × PonderState :=
  (if size > 8 ∧ size % 3 ≠ 0 then [(LogLevel.critical, sizeCriticalMsg)] else [],
   { size := size, commands := [] })

/-! Grouping compiled commands by time (`Ponder.compile`, lines 159-166).

`functions` is a Python dict from time to the list of command strings of
that time; a dict preserves key insertion order, so it is embedded as an
association list to which new keys are appended at the end. -/

/-- The provenance comment placed at the head of every generated
`.mcfunction` file (lines 166 and 174). -/
def generatedHeader : String := "# Generated by creepe_ponder"

/-- One iteration of the grouping loop (lines 161-166): append
`command_str` to the existing bucket of `time`, or start a new bucket
`[header, command_str]` at the end. -/
def addCommand (functions : List (Int × List String)) (time : Int) (s : String) :
    List (Int × List String) :=
  if time ∈ functions.map Prod.fst then
    functions.map (fun q => if q.1 = time then (q.1, q.2 ++ [s]) else q)
  else
    functions ++ [(time, [generatedHeader, s])]

/-- The whole grouping loop over the compiled `(time, command_str)` pairs. -/
def buildFunctions (commands : List (Int × String)) : List (Int × List String) :=
  commands.foldl (fun acc c => addCommand acc c.1 c.2) []

/-- Association-list lookup of a bucket, mirroring `functions[time]`. -/
def findBucket : List (Int × List String) → Int → Option (List String)
  | [], _ => none
  | q :: qs, t => if q.1 = t then some q.2 else findBucket qs t

/-- The command texts of the input pairs whose time equals `t`, in emission
order; used to state what a bucket must contain. -/
def bucketTexts (commands : List (Int × String)) (t : Int) : List String :=
  (commands.filter (fun c => c.1 == t)).map Prod.snd

/-- Accumulator step collecting distinct time values in first-seen order;
`insertTime` is to the bucket keys what `addCommand` is to the buckets. -/
def insertTime (acc : List Int) (t : Int) : List Int :=
  if t ∈ acc then acc else acc ++ [t]

/-- The distinct time values of a compiled command sequence in first-seen
order; stated from the spec's words to characterise the key order of
`buildFunctions`. -/
def firstSeenTimes (ts : List Int) : List Int := ts.foldl insertTime []

/-! The scheduler chain (`Ponder.compile`, lines 173-181). -/

/-- The scheduling directive emitted for bucket time `time` (line 178):
`schedule function {ponder_name}:{time} {time * 2 + 1} append`. -/
def schedLine (ponder_name : String) (time : Int) : String :=
  s!"schedule function {ponder_name}:{time} {time * 2 + 1} append"

/-- The line list of `main.mcfunction` (lines 174-178): the provenance
header followed by one scheduling directive per bucket, in bucket order. -/
def mainCommandList (ponder_name : String) (commands : List (Int × String)) :
    List String :=
  generatedHeader :: (buildFunctions commands).map (fun q => schedLine ponder_name q.1)

/-- Python's `'\n'.join`. -/
def joinLines : List String → String
  | [] => ""
  | [s] => s
  | s :: ss => s ++ "\n" ++ joinLines ss

/-- Python's `str.lower`, character-wise; the only comparisons in scope are
against the ASCII letter `y`, on which `Char.toLower` agrees with CPython. -/
def pyLower (s : String) : String := String.mk (s.data.map Char.toLower)

/-! The compile entry point (`Ponder.compile`, lines 109-190). -/

/-- The exact text `json.dumps` produces for the `meta_data` dict of lines
145-151 (default separators, `ensure_ascii` escaping the description). -/
def metaFileContent : String :=
  "\x7b\"pack\": \x7b\"pack_format\": 16, \"supported_formats\": [16, 39], \"description\": \"\\u4f7f\\u7528 creepe_ponder \\u751f\\u6210\\u7684\\u601d\\u7d22\\u6570\\u636e\\u5305\"\x7d\x7d"

/-- A file-system side effect performed by `Ponder.compile`. -/
inductive FsEvent where
  | mkdir (path : String)
  | write (path : String) (content : String)
  | makeArchive (base : String)
  | rmtree (path : String)
deriving DecidableEq

/-- How one call of `Ponder.compile` ends: cancelled at the overwrite
prompt (`return`, line 136), aborted by an exception out of
`shutil.make_archive` (line 184), aborted by the `ValueError` that
`max(functions.keys())` raises on an empty dict (line 190), or run to the
end, returning the Python function's (implicit) return value. -/
inductive CompileOutcome where
  | cancelled
  | archiveRaised
  | maxRaised
  | finished (retval : Option String)
deriving DecidableEq

/-- The inputs and environment of one `Ponder.compile` call: its keyword
arguments, the `(time, text)` pairs `compile_operations` returns for this
ponder and offset, and the file-system/operator facts the call consults
(`os.path.exists` of the zip, `datapack_dir.exists()`, the `input()`
answer, and whether `make_archive` succeeds). -/
structure CompileParams where
  version : Bool
  ponder_name : String
  output_dir : String
  commands : List (Int × String)
  zip_exists : Bool
  datapack_dir_exists : Bool
  answer : String
  archive_ok : Bool

/-- The working directory `Path(output_dir) / ponder_name` (line 129). -/
def datapackDir (p : CompileParams) : String :=
  p.output_dir ++ "/" ++ p.ponder_name

/-- The function directory of line 156: `data/{ponder_name}/function` for
1.21+, `.../functions` otherwise. -/
def functionDir (p : CompileParams) : String :=
  datapackDir p ++ "/data/" ++ p.ponder_name ++ "/"
    ++ (if p.version then "function" else "functions")

/-- Model of `Ponder.compile` (lines 109-190) as a pure function from its inputs to
the ordered trace of file-system effects and the outcome.  The steps, in
source order: the overwrite prompt (132-136, before anything is written),
`datapack_dir.mkdir` when absent (141-142), `pack.mcmeta` (152-153),
`function_dir.mkdir` (156-157), one `_{time}.mcfunction` per bucket
(168-171), `main.mcfunction` (180-181), `make_archive` (184), `rmtree`
(187), and the summary log whose `max(functions.keys())` raises on an
empty dict (189-190).  The function body has no `return` after line 136,
so a completed run returns `None`.  Line 157's `mkdir` is modelled as
succeeding: a `function_dir` left over inside an existing `datapack_dir`
would make Python raise `FileExistsError` there, a path no claim
concerns. -/
def compileModel (p : CompileParams) : List FsEvent × CompileOutcome :=
  if p.zip_exists && (pyLower p.answer != "y") then
    ([], CompileOutcome.cancelled)
  else
    let functions := buildFunctions p.commands
    let events :=
      (if p.datapack_dir_exists then [] else [FsEvent.mkdir (datapackDir p)])
      ++ [FsEvent.write (datapackDir p ++ "/pack.mcmeta") metaFileContent,
          FsEvent.mkdir (functionDir p)]
      ++ functions.map (fun q =>
           FsEvent.write (functionDir p ++ "/_" ++ toString q.1 ++ ".mcfunction")
             (joinLines q.2))
      ++ [FsEvent.write (functionDir p ++ "/main.mcfunction")
           (joinLines (mainCommandList p.ponder_name p.commands))]
    if p.archive_ok then
      let events := events
        ++ [FsEvent.makeArchive (datapackDir p), FsEvent.rmtree (datapackDir p)]
      if functions.isEmpty then (events, CompileOutcome.maxRaised)
      else (events, CompileOutcome.finished none)
    else (events, CompileOutcome.archiveRaised)

/-- The `(path, content)` pairs of the `write_text` calls of a trace, in
order. -/
def writesOf : List FsEvent → List (String × String)
  | [] => []
  | FsEvent.write p c :: es => (p, c) :: writesOf es
  | _ :: es => writesOf es

/-- A representative successful-run input: one compiled command, no
pre-existing archive, default keyword arguments, archiving succeeds. -/
def successParams : CompileParams :=
  { version := true
    ponder_name := "ponders"
    output_dir := "."
    commands := [((0 : Int), "cmd")]
    zip_exists := false
    datapack_dir_exists := false
    answer := ""
    archive_ok := true }

/-- A run in which the archive already exists and the operator answers `N`. -/
def cancelParams : CompileParams :=
  { successParams with zip_exists := true, answer := "N" }

/-- A run compiled from an empty operation log. -/
def emptyLogParams : CompileParams :=
  { successParams with commands := [] }

/-- A run in which `shutil.make_archive` raises. -/
def failArchiveParams : CompileParams :=
  { successParams with archive_ok := false }

/-- A two-bucket run used to witness the layout claims. -/
def twoBucketParams : CompileParams :=
  { successParams with commands := [((0 : Int), "cmd"), ((2 : Int), "x"), ((0 : Int), "y")] }

/-! Properties of the decimal rendering: `toString : Int → String` is
injective and produces no space character. -/

lemma natDigits_lt10 {n : Nat} (h : n < 10) : natDigits n = [n] := by
  rw [natDigits]; simp [h]

lemma natDigits_ge10 {n : Nat} (h : ¬ n < 10) :
    natDigits n = natDigits (n / 10) ++ [n % 10] := by
  rw [natDigits]; simp [h]

lemma natDigits_ne_nil (n : Nat) : natDigits n ≠ [] := by
  rw [natDigits]; split <;> simp

lemma natDigits_lt (n : Nat) : ∀ d ∈ natDigits n, d < 10 := by
  induction n using Nat.strong_induction_on with
  | _ n ih =>
    by_cases hn : n < 10
    · rw [natDigits_lt10 hn]; intro d hd; simp at hd; omega
    · rw [natDigits_ge10 hn]
      intro d hd
      simp only [List.mem_append, List.mem_singleton] at hd
      rcases hd with hd | hd
      · exact ih (n / 10) (Nat.div_lt_self (by omega) (by omega)) d hd
      · omega

lemma natDigits_inj : ∀ n m : Nat, natDigits n = natDigits m → n = m := by
  intro n
  induction n using Nat.strong_induction_on with
  | _ n ih =>
    intro m h
    by_cases hn : n < 10 <;> by_cases hm : m < 10
    · rw [natDigits_lt10 hn, natDigits_lt10 hm] at h; simpa using h
    · rw [natDigits_lt10 hn, natDigits_ge10 hm] at h
      obtain ⟨a, l, hal⟩ := List.exists_cons_of_ne_nil (natDigits_ne_nil (m / 10))
      rw [hal] at h
      simp at h
    · rw [natDigits_ge10 hn, natDigits_lt10 hm] at h
      obtain ⟨a, l, hal⟩ := List.exists_cons_of_ne_nil (natDigits_ne_nil (n / 10))
      rw [hal] at h
      simp at h
    · rw [natDigits_ge10 hn, natDigits_ge10 hm] at h
      have hsplit := List.append_inj' h (by simp)
      have h1 := ih (n / 10) (Nat.div_lt_self (by omega) (by omega)) (m / 10) hsplit.1
      have h2 : n % 10 = m % 10 := by simpa using hsplit.2
      omega

lemma toDigitsCore_eq : ∀ (fuel n : Nat) (ds : List Char), n < fuel →
    Nat.toDigitsCore 10 fuel n ds = (natDigits n).map Nat.digitChar ++ ds := by
  intro fuel
  induction fuel with
  | zero => omega
  | succ f ih =>
    intro n ds h
    rw [natDigits]
    simp only [Nat.toDigitsCore]
    split
    · next hdiv =>
      have hn : n < 10 := by omega
      rw [if_pos hn]
      simp [Nat.mod_eq_of_lt hn]
    · next hdiv =>
      have hn : ¬ n < 10 := by omega
      rw [if_neg hn]
      rw [ih (n / 10) _ (by omega)]
      simp

lemma natRepr_data (n : Nat) :
    (Nat.repr n).data = (natDigits n).map Nat.digitChar := by
  show (Nat.toDigits 10 n).asString.data = _
  rw [Nat.toDigits, toDigitsCore_eq (n + 1) n [] (by omega)]
  simp [List.asString]

lemma map_digitChar_inj : ∀ l1 l2 : List Nat, (∀ d ∈ l1, d < 10) →
    (∀ d ∈ l2, d < 10) → l1.map Nat.digitChar = l2.map Nat.digitChar → l1 = l2 := by
  intro l1
  induction l1 with
  | nil => intro l2 _ _ h; cases l2 <;> simp_all
  | cons a l ih =>
    intro l2 h1 h2 h
    cases l2 with
    | nil => simp at h
    | cons b l2' =>
      simp only [List.map_cons, List.cons.injEq] at h
      have ha : a < 10 := h1 a (by simp)
      have hb : b < 10 := h2 b (by simp)
      have hd10 : ∀ d < 10, ∀ e < 10, Nat.digitChar d = Nat.digitChar e → d = e := by
        decide
      have hab : a = b := hd10 a ha b hb h.1
      subst hab
      rw [ih l2' (fun d hd => h1 d (by simp [hd])) (fun d hd => h2 d (by simp [hd])) h.2]

lemma natRepr_inj {n m : Nat} (h : Nat.repr n = Nat.repr m) : n = m := by
  apply natDigits_inj
  have hd := congrArg String.data h
  rw [natRepr_data, natRepr_data] at hd
  exact map_digitChar_inj _ _ (natDigits_lt n) (natDigits_lt m) hd

lemma natRepr_data_cons (n : Nat) :
    ∃ d rest, d < 10 ∧ (Nat.repr n).data = Nat.digitChar d :: rest := by
  obtain ⟨a, l, hal⟩ := List.exists_cons_of_ne_nil (natDigits_ne_nil n)
  refine ⟨a, l.map Nat.digitChar, natDigits_lt n a (by rw [hal]; simp), ?_⟩
  rw [natRepr_data, hal]
  simp

lemma intToString_ofNat (m : Nat) : toString (Int.ofNat m) = Nat.repr m := rfl

lemma intToString_negSucc (m : Nat) :
    toString (Int.negSucc m) = "-" ++ Nat.repr (m + 1) := rfl

lemma intToString_inj : ∀ i j : Int, toString i = toString j → i = j := by
  intro i j h
  have hd10ne : ∀ d < 10, Nat.digitChar d ≠ '-' := by decide
  cases i with
  | ofNat m =>
    cases j with
    | ofNat k =>
      rw [intToString_ofNat, intToString_ofNat] at h
      exact congrArg Int.ofNat (natRepr_inj h)
    | negSucc k =>
      rw [intToString_ofNat, intToString_negSucc] at h
      obtain ⟨d, rest, hd, hdata⟩ := natRepr_data_cons m
      have hds := congrArg String.data h
      rw [hdata, String.data_append] at hds
      have hhead : Nat.digitChar d = '-' := by
        have := congrArg List.head? hds
        simpa using this
      exact absurd hhead (hd10ne d hd)
  | negSucc m =>
    cases j with
    | ofNat k =>
      rw [intToString_negSucc, intToString_ofNat] at h
      obtain ⟨d, rest, hd, hdata⟩ := natRepr_data_cons k
      have hds := congrArg String.data h
      rw [hdata, String.data_append] at hds
      have hhead : '-' = Nat.digitChar d := by
        have := congrArg List.head? hds
        simpa using this
      exact absurd hhead.symm (hd10ne d hd)
    | negSucc k =>
      rw [intToString_negSucc, intToString_negSucc] at h
      have hds := congrArg String.data h
      rw [String.data_append, String.data_append] at hds
      simp only [List.cons_append, List.nil_append] at hds
      have hrepr : Nat.repr (m + 1) = Nat.repr (k + 1) := by
        apply String.ext
        simpa using hds
      have hmk : m = k := by have := natRepr_inj hrepr; omega
      exact congrArg Int.negSucc hmk

lemma natRepr_no_space (n : Nat) : ' ' ∉ (Nat.repr n).data := by
  rw [natRepr_data]
  intro hmem
  obtain ⟨d, hd, hdc⟩ := List.mem_map.mp hmem
  have hne : ∀ d < 10, Nat.digitChar d ≠ ' ' := by decide
  exact hne d (natDigits_lt n d hd) hdc

lemma intToString_no_space (i : Int) : ' ' ∉ (toString i).data := by
  cases i with
  | ofNat m => rw [intToString_ofNat]; exact natRepr_no_space m
  | negSucc m =>
    rw [intToString_negSucc, String.data_append]
    intro hmem
    rcases List.mem_append.mp hmem with hmem | hmem
    · have hh : ("-" : String).data = ['-'] := rfl
      rw [hh] at hmem
      simp at hmem
    · exact natRepr_no_space (m + 1) hmem

lemma append_space_inj : ∀ (l1 l2 r1 r2 : List Char), ' ' ∉ l1 → ' ' ∉ l2 →
    l1 ++ ' ' :: r1 = l2 ++ ' ' :: r2 → l1 = l2 ∧ r1 = r2 := by
  intro l1
  induction l1 with
  | nil =>
    intro l2 r1 r2 _ h2 h
    cases l2 with
    | nil => simpa using h
    | cons b t =>
      simp only [List.nil_append, List.cons_append, List.cons.injEq] at h
      exact absurd (h.1 ▸ List.mem_cons_self b t) h2
  | cons a t ih =>
    intro l2 r1 r2 h1 h2 h
    cases l2 with
    | nil =>
      simp only [List.nil_append, List.cons_append, List.cons.injEq] at h
      exact absurd (h.1 ▸ List.mem_cons_self a t) h1
    | cons b t2 =>
      simp only [List.cons_append, List.cons.injEq] at h
      have := ih t2 r1 r2 (fun hm => h1 (List.mem_cons_of_mem a hm))
        (fun hm => h2 (List.mem_cons_of_mem b hm)) h.2
      exact ⟨by rw [h.1, this.1], this.2⟩

lemma schedLine_data (n : String) (t : Int) :
    (schedLine n t).data
      = "schedule function ".data ++ (n.data ++ (':' :: ((toString t).data
          ++ (' ' :: ((toString (t * 2 + 1)).data ++ " append".data))))) := by
  simp only [schedLine, toString, String.data_append, List.append_assoc,
    List.singleton_append, List.cons_append, List.nil_append]

lemma schedLine_inj (n : String) {t t' : Int} (h : schedLine n t = schedLine n t') :
    t = t' := by
  have hd := congrArg String.data h
  rw [schedLine_data, schedLine_data] at hd
  have hd2 := List.append_cancel_left hd
  have hd3 := List.append_cancel_left hd2
  have hd4 := List.cons_injective hd3
  have hsp := append_space_inj _ _ _ _ (intToString_no_space t)
    (intToString_no_space t') hd4
  exact intToString_inj t t' (String.ext hsp.1)

lemma schedLine_ne_header (n : String) (t : Int) :
    schedLine n t ≠ generatedHeader := by
  intro h
  have hd := congrArg String.data h
  rw [schedLine_data] at hd
  have hh : ("schedule function " : String).data
      = 's' :: "chedule function ".data := rfl
  rw [hh] at hd
  have hg : generatedHeader.data = '#' :: " Generated by creepe_ponder".data := rfl
  rw [hg] at hd
  simp only [List.cons_append, List.cons.injEq] at hd
  exact absurd hd.1 (by decide)

/-! Properties of the grouping loop: key order, bucket contents. -/

lemma keys_update (acc : List (Int × List String)) (t : Int) (s : String) :
    (acc.map (fun q => if q.1 = t then (q.1, q.2 ++ [s]) else q)).map Prod.fst
      = acc.map Prod.fst := by
  induction acc with
  | nil => rfl
  | cons q qs ih => by_cases h : q.1 = t <;> simp [h, ih]

lemma keys_addCommand (acc : List (Int × List String)) (t : Int) (s : String) :
    (addCommand acc t s).map Prod.fst = insertTime (acc.map Prod.fst) t := by
  unfold addCommand insertTime
  split
  · next hmem => exact keys_update acc t s
  · next hmem => simp

lemma keys_foldl (cs : List (Int × String)) :
    ∀ acc, (cs.foldl (fun a c => addCommand a c.1 c.2) acc).map Prod.fst
      = (cs.map Prod.fst).foldl insertTime (acc.map Prod.fst) := by
  induction cs with
  | nil => intro acc; rfl
  | cons c cs ih =>
    intro acc
    simp only [List.foldl_cons, List.map_cons]
    rw [ih, keys_addCommand]

lemma keys_buildFunctions (cs : List (Int × String)) :
    (buildFunctions cs).map Prod.fst = firstSeenTimes (cs.map Prod.fst) := by
  unfold buildFunctions firstSeenTimes
  exact keys_foldl cs []

lemma foldl_insertTime_nodup :
    ∀ (ts acc : List Int), acc.Nodup → (ts.foldl insertTime acc).Nodup := by
  intro ts
  induction ts with
  | nil => intro acc h; exact h
  | cons t ts ih =>
    intro acc h
    refine ih _ ?_
    unfold insertTime
    split
    · exact h
    · next hmem => simp [List.nodup_append, h, hmem]

lemma mem_foldl_insertTime : ∀ (ts acc : List Int) (a : Int),
    a ∈ ts.foldl insertTime acc ↔ a ∈ acc ∨ a ∈ ts := by
  intro ts
  induction ts with
  | nil => intro acc a; simp
  | cons t ts ih =>
    intro acc a
    simp only [List.foldl_cons, ih, List.mem_cons]
    unfold insertTime
    by_cases hmem : t ∈ acc
    · rw [if_pos hmem]
      constructor
      · rintro (h | h)
        · exact Or.inl h
        · exact Or.inr (Or.inr h)
      · rintro (h | h | h)
        · exact Or.inl h
        · exact Or.inl (h ▸ hmem)
        · exact Or.inr h
    · rw [if_neg hmem]
      simp only [List.mem_append, List.mem_singleton]
      constructor
      · rintro ((h | h) | h)
        · exact Or.inl h
        · exact Or.inr (Or.inl h)
        · exact Or.inr (Or.inr h)
      · rintro (h | h | h)
        · exact Or.inl (Or.inl h)
        · exact Or.inl (Or.inr h)
        · exact Or.inr h

lemma foldl_insertTime_sublist :
    ∀ (ts acc : List Int), (ts.foldl insertTime acc).Sublist (acc ++ ts) := by
  intro ts
  induction ts with
  | nil => intro acc; simp
  | cons t ts ih =>
    intro acc
    simp only [List.foldl_cons]
    refine (ih (insertTime acc t)).trans ?_
    unfold insertTime
    split
    · exact List.Sublist.append_left (List.sublist_cons_self t ts) acc
    · rw [List.append_assoc, List.singleton_append]

lemma buildFunctions_keys_nodup (cs : List (Int × String)) :
    ((buildFunctions cs).map Prod.fst).Nodup := by
  rw [keys_buildFunctions]
  exact foldl_insertTime_nodup _ [] (by simp)

lemma mem_buildFunctions_keys (cs : List (Int × String)) (t : Int) :
    t ∈ (buildFunctions cs).map Prod.fst ↔ t ∈ cs.map Prod.fst := by
  rw [keys_buildFunctions]
  unfold firstSeenTimes
  rw [mem_foldl_insertTime]
  simp

lemma buildFunctions_length (cs : List (Int × String)) :
    (buildFunctions cs).length = (cs.map Prod.fst).dedup.length := by
  have hlen : (buildFunctions cs).length
      = ((buildFunctions cs).map Prod.fst).length := (List.length_map _ _).symm
  rw [hlen, ← List.toFinset_card_of_nodup (buildFunctions_keys_nodup cs),
    ← List.card_toFinset]
  congr 1
  ext a
  simp only [List.mem_toFinset]
  exact mem_buildFunctions_keys cs a

lemma findBucket_none (acc : List (Int × List String)) (t : Int) :
    findBucket acc t = none ↔ t ∉ acc.map Prod.fst := by
  induction acc with
  | nil => simp [findBucket]
  | cons q qs ih =>
    simp only [findBucket, List.map_cons, List.mem_cons]
    by_cases h : q.1 = t
    · simp [h]
    · rw [if_neg h, ih]
      constructor
      · intro hn
        push_neg
        exact ⟨fun hh => h hh.symm, hn⟩
      · intro hn
        push_neg at hn
        exact hn.2

lemma findBucket_append (l1 l2 : List (Int × List String)) (t : Int) :
    findBucket (l1 ++ l2) t
      = match findBucket l1 t with
        | some b => some b
        | none => findBucket l2 t := by
  induction l1 with
  | nil => simp [findBucket]
  | cons q qs ih =>
    by_cases h : q.1 = t <;> simp [findBucket, h, ih]

lemma findBucket_update_self (acc : List (Int × List String)) (t : Int) (s : String) :
    findBucket (acc.map (fun q => if q.1 = t then (q.1, q.2 ++ [s]) else q)) t
      = (findBucket acc t).map (fun b => b ++ [s]) := by
  induction acc with
  | nil => rfl
  | cons q qs ih =>
    by_cases h : q.1 = t
    · simp [findBucket, h]
    · simp [findBucket, h, ih]

lemma findBucket_update_other (acc : List (Int × List String)) {t t' : Int}
    (s : String) (h : t' ≠ t) :
    findBucket (acc.map (fun q => if q.1 = t then (q.1, q.2 ++ [s]) else q)) t'
      = findBucket acc t' := by
  induction acc with
  | nil => rfl
  | cons q qs ih =>
    have htt' : ¬ t = t' := fun hh => h hh.symm
    by_cases hq : q.1 = t
    · have hq' : ¬ q.1 = t' := by rw [hq]; exact fun hh => h hh.symm
      simp [findBucket, hq, hq', ih, htt', h]
    · by_cases hq' : q.1 = t' <;> simp [findBucket, hq, hq', ih, htt', h]

lemma findBucket_foldl (cs : List (Int × String)) :
    ∀ (acc : List (Int × List String)) (t : Int),
      findBucket (cs.foldl (fun a c => addCommand a c.1 c.2) acc) t
        = match findBucket acc t with
          | some b => some (b ++ bucketTexts cs t)
          | none =>
            if t ∈ cs.map Prod.fst then some (generatedHeader :: bucketTexts cs t)
            else none := by
  induction cs with
  | nil =>
    intro acc t
    cases h : findBucket acc t <;> simp [bucketTexts, h]
  | cons c cs ih =>
    intro acc t
    simp only [List.foldl_cons]
    rw [ih]
    by_cases hct : c.1 = t
    · subst hct
      have hb : bucketTexts (c :: cs) c.1 = c.2 :: bucketTexts cs c.1 := by
        simp [bucketTexts, List.filter_cons]
      have hmem2 : c.1 ∈ (c :: cs).map Prod.fst := by simp
      unfold addCommand
      by_cases hmem : c.1 ∈ acc.map Prod.fst
      · rw [if_pos hmem]
        obtain ⟨b, hacc⟩ : ∃ b, findBucket acc c.1 = some b := by
          cases h' : findBucket acc c.1 with
          | none => exact absurd ((findBucket_none acc c.1).mp h') (not_not.mpr hmem)
          | some b => exact ⟨b, rfl⟩
        rw [findBucket_update_self, hacc, hb]
        simp
      · rw [if_neg hmem]
        rw [findBucket_append, (findBucket_none acc c.1).mpr hmem]
        simp [findBucket, hb, hmem2]
    · have hct' : ¬ t = c.1 := fun hh => hct hh.symm
      have hb : bucketTexts (c :: cs) t = bucketTexts cs t := by
        simp [bucketTexts, List.filter_cons, hct]
      have hfb : findBucket (addCommand acc c.1 c.2) t = findBucket acc t := by
        unfold addCommand
        split
        · exact findBucket_update_other acc c.2 hct'
        · rw [findBucket_append]
          cases h' : findBucket acc t with
          | none => simp [findBucket, hct]
          | some b => simp
      rw [hfb, hb]
      cases h' : findBucket acc t with
      | none =>
        have hiff : t ∈ (c :: cs).map Prod.fst ↔ t ∈ cs.map Prod.fst := by
          simp [hct']
        rw [if_congr hiff rfl rfl]
      | some b => simp

lemma findBucket_buildFunctions (cs : List (Int × String)) (t : Int) :
    findBucket (buildFunctions cs) t
      = if t ∈ cs.map Prod.fst then some (generatedHeader :: bucketTexts cs t)
        else none := by
  have h := findBucket_foldl cs [] t
  simpa [findBucket] using h

lemma bucketTexts_ne_nil {cs : List (Int × String)} {t : Int}
    (h : t ∈ cs.map Prod.fst) : bucketTexts cs t ≠ [] := by
  obtain ⟨c, hc, hct⟩ := List.mem_map.mp h
  unfold bucketTexts
  intro hnil
  have hfil : cs.filter (fun c => c.1 == t) = [] := by
    exact List.map_eq_nil_iff.mp hnil
  have hcmem : c ∈ cs.filter (fun c => c.1 == t) :=
    List.mem_filter.mpr ⟨hc, by simp [hct]⟩
  rw [hfil] at hcmem
  simp at hcmem

lemma joinLines_cons (s : String) {ss : List String} (h : ss ≠ []) :
    joinLines (s :: ss) = s ++ "\n" ++ joinLines ss := by
  cases ss with
  | nil => exact absurd rfl h
  | cons a tl => rfl

lemma writesOf_append (l1 l2 : List FsEvent) :
    writesOf (l1 ++ l2) = writesOf l1 ++ writesOf l2 := by
  induction l1 with
  | nil => rfl
  | cons e es ih => cases e <;> simp [writesOf, ih]

lemma writesOf_map_write {α : Type} (l : List α) (f g : α → String) :
    writesOf (l.map fun a => FsEvent.write (f a) (g a))
      = l.map fun a => (f a, g a) := by
  induction l with
  | nil => rfl
  | cons a l ih => simp [writesOf, ih]

/-- C9.  For every integer `size`, `Ponder(size)` completes without
raising (the embedding `ponderInit` is total and always yields a state),
stores `size` and an empty command list, and the size-constraint violation
for `size > 8 ∧ size % 3 ≠ 0` produces exactly one critical log record —
it is never raised; with the constraint satisfied nothing is logged. -/
theorem ponderInit_total_only_logs (size : Int) :
    (ponderInit size).2.size = size
    ∧ (ponderInit size).2.commands = []
    ∧ (size > 8 ∧ size % 3 ≠ 0 →
        (ponderInit size).1 = [(LogLevel.critical, sizeCriticalMsg)])
    ∧ (¬(size > 8 ∧ size % 3 ≠ 0) → (ponderInit size).1 = []) := by
  exact ⟨rfl, rfl, fun h => if_pos h, fun h => if_neg h⟩

/-- C4 (evidence of the code bug).  On a successful run — one compiled
command, no pre-existing archive, `make_archive` succeeds — the body of
`Ponder.compile` falls off its end, so the call returns `None`, not the
path of the produced archive that its docstring (`:return: 输出路径`) and
the spec promise. -/
theorem compile_success_returns_none :
    (compileModel successParams).2 = CompileOutcome.finished none := by
  rfl

/-- C5.  When the target archive already exists and the operator's answer,
lowercased, is anything but `y`, `compile` returns before any file-system
effect: the event trace is empty and the outcome is the cancelled return
of line 136. -/
theorem cancel_is_pure_noop (p : CompileParams) (h1 : p.zip_exists = true)
    (h2 : pyLower p.answer ≠ "y") :
    compileModel p = ([], CompileOutcome.cancelled) := by
  unfold compileModel
  rw [if_pos]
  rw [h1]
  simpa using h2

theorem cancel_is_pure_noop_witness :
    compileModel cancelParams = ([], CompileOutcome.cancelled) :=
  cancel_is_pure_noop cancelParams rfl (by decide)

/-- C2.  Grouping the compiled `(time, text)` pairs yields one bucket per
distinct time value — `k` buckets for `k` distinct times — and the bucket
of `t` holds, after the provenance header that line 166 plants, exactly
the texts of the pairs whose time is `t`, in emission order. -/
theorem grouping_exact (cs : List (Int × String)) (t : Int)
    (h : t ∈ cs.map Prod.fst) :
    findBucket (buildFunctions cs) t = some (generatedHeader :: bucketTexts cs t)
    ∧ (buildFunctions cs).length = (cs.map Prod.fst).dedup.length :=
  ⟨by rw [findBucket_buildFunctions, if_pos h], buildFunctions_length cs⟩

theorem grouping_exact_witness :
    findBucket (buildFunctions [((1 : Int), "a"), ((2 : Int), "b"), ((1 : Int), "c")]) 1
      = some (generatedHeader
          :: bucketTexts [((1 : Int), "a"), ((2 : Int), "b"), ((1 : Int), "c")] 1)
    ∧ (buildFunctions [((1 : Int), "a"), ((2 : Int), "b"), ((1 : Int), "c")]).length
      = ((([((1 : Int), "a"), ((2 : Int), "b"), ((1 : Int), "c")]).map Prod.fst).dedup).length :=
  grouping_exact [((1 : Int), "a"), ((2 : Int), "b"), ((1 : Int), "c")] 1 (by decide)

/-- C3.  Buckets are created in first-seen order of the time values, the
scheduling directives of `main.mcfunction` follow exactly that bucket
order, a log already in non-decreasing time order yields a strictly
increasing chain, and an out-of-order log — times 5 then 3 — yields the
unsorted key order `[5, 3]`, so the chain is not numerically sorted in
general. -/
theorem bucket_order_first_seen (ponder_name : String) (cs : List (Int × String)) :
    (buildFunctions cs).map Prod.fst = firstSeenTimes (cs.map Prod.fst)
    ∧ mainCommandList ponder_name cs
      = generatedHeader
        :: ((buildFunctions cs).map Prod.fst).map (schedLine ponder_name)
    ∧ ((cs.map Prod.fst).Sorted (· ≤ ·) →
        ((buildFunctions cs).map Prod.fst).Sorted (· < ·))
    ∧ (buildFunctions [((5 : Int), "a"), ((3 : Int), "b")]).map Prod.fst = [5, 3] := by
  refine ⟨keys_buildFunctions cs, ?_, ?_, by decide⟩
  · unfold mainCommandList
    rw [List.map_map]
    rfl
  · intro hs
    have hsub : ((buildFunctions cs).map Prod.fst).Sublist (cs.map Prod.fst) := by
      rw [keys_buildFunctions]
      have := foldl_insertTime_sublist (cs.map Prod.fst) []
      simpa [firstSeenTimes] using this
    exact List.Sorted.lt_of_le (List.Pairwise.sublist hsub hs) (buildFunctions_keys_nodup cs)

/-- C1.  For every bucket time `t` of the compiled commands, the
`main.mcfunction` line list contains exactly one scheduling directive for
`t`, and that directive is literally
`schedule function {ponder_name}:{t} {2*t + 1} append` — the user time
converted to native tick `2t + 1`, scheduled with `append` semantics. -/
theorem mainChain_unique_schedule (ponder_name : String) (cs : List (Int × String))
    (t : Int) (h : t ∈ cs.map Prod.fst) :
    (mainCommandList ponder_name cs).count (schedLine ponder_name t) = 1
    ∧ schedLine ponder_name t
      = "schedule function " ++ ponder_name ++ ":" ++ toString t ++ " "
        ++ toString (2 * t + 1) ++ " append" := by
  constructor
  · unfold mainCommandList
    rw [List.count_cons_of_ne (schedLine_ne_header ponder_name t)]
    have hmap : (buildFunctions cs).map (fun q => schedLine ponder_name q.1)
        = ((buildFunctions cs).map Prod.fst).map (schedLine ponder_name) := by
      rw [List.map_map]; rfl
    rw [hmap]
    apply List.count_eq_one_of_mem
    · exact List.Nodup.map_on
        (fun x hx y hy hxy => schedLine_inj ponder_name hxy)
        (buildFunctions_keys_nodup cs)
    · exact List.mem_map_of_mem _ ((mem_buildFunctions_keys cs t).mpr h)
  · have harith : (2 * t + 1 : Int) = t * 2 + 1 := by ring
    rw [harith]
    rfl

theorem mainChain_unique_schedule_witness :
    (mainCommandList "ponders" [((5 : Int), "x")]).count (schedLine "ponders" 5) = 1
    ∧ schedLine "ponders" 5
      = "schedule function " ++ "ponders" ++ ":" ++ toString (5 : Int) ++ " "
        ++ toString (2 * (5 : Int) + 1) ++ " append" :=
  mainChain_unique_schedule "ponders" [((5 : Int), "x")] 5 (by decide)

/-- C6.  A non-empty bucket's rendered `_{time}.mcfunction` text is
exactly one provenance comment line followed by the bucket's command
texts, newline-joined, and the rendered `main.mcfunction` text is exactly
one provenance comment line followed by the scheduling directives,
newline-joined. -/
theorem rendered_file_contents (ponder_name : String) (cs : List (Int × String))
    (t : Int) (h : t ∈ cs.map Prod.fst) :
    (findBucket (buildFunctions cs) t).map joinLines
      = some (generatedHeader ++ "\n" ++ joinLines (bucketTexts cs t))
    ∧ joinLines (mainCommandList ponder_name cs)
      = generatedHeader ++ "\n"
        ++ joinLines ((buildFunctions cs).map (fun q => schedLine ponder_name q.1)) := by
  constructor
  · rw [findBucket_buildFunctions, if_pos h]
    simp [joinLines_cons generatedHeader (bucketTexts_ne_nil h)]
  · unfold mainCommandList
    apply joinLines_cons
    intro hnil
    have hkeys : t ∈ (buildFunctions cs).map Prod.fst :=
      (mem_buildFunctions_keys cs t).mpr h
    rw [List.map_eq_nil_iff.mp hnil] at hkeys
    simp at hkeys

theorem rendered_file_contents_witness :
    (findBucket (buildFunctions [((2 : Int), "a"), ((2 : Int), "b")]) 2).map joinLines
      = some (generatedHeader ++ "\n"
          ++ joinLines (bucketTexts [((2 : Int), "a"), ((2 : Int), "b")] 2))
    ∧ joinLines (mainCommandList "ponders" [((2 : Int), "a"), ((2 : Int), "b")])
      = generatedHeader ++ "\n"
        ++ joinLines ((buildFunctions [((2 : Int), "a"), ((2 : Int), "b")]).map
            (fun q => schedLine "ponders" q.1)) :=
  rendered_file_contents "ponders" [((2 : Int), "a"), ((2 : Int), "b")] 2 (by decide)

/-- C7.  Any non-cancelled run writes exactly: `pack.mcmeta` at the pack
root holding the fixed JSON document (`pack_format` 16,
`supported_formats` `[16, 39]`), then one `_{time}.mcfunction` per
distinct bucket time inside the function directory — named `function`
when the version flag is set, `functions` otherwise — then
`main.mcfunction`. -/
theorem datapack_layout (p : CompileParams)
    (h : (p.zip_exists && (pyLower p.answer != "y")) = false) :
    writesOf (compileModel p).1
      = (datapackDir p ++ "/pack.mcmeta", metaFileContent)
        :: ((buildFunctions p.commands).map (fun q =>
              (functionDir p ++ "/_" ++ toString q.1 ++ ".mcfunction", joinLines q.2))
            ++ [(functionDir p ++ "/main.mcfunction",
                 joinLines (mainCommandList p.ponder_name p.commands))])
    ∧ functionDir p
      = datapackDir p ++ "/data/" ++ p.ponder_name ++ "/"
        ++ (if p.version then "function" else "functions")
    ∧ ((buildFunctions p.commands).map Prod.fst).Nodup
    ∧ (∀ t, t ∈ (buildFunctions p.commands).map Prod.fst
        ↔ t ∈ p.commands.map Prod.fst) := by
  refine ⟨?_, rfl, buildFunctions_keys_nodup p.commands,
    mem_buildFunctions_keys p.commands⟩
  cases hd : p.datapack_dir_exists <;> by_cases ha : p.archive_ok <;>
    by_cases he : (buildFunctions p.commands).isEmpty <;>
      simp [compileModel, h, ha, he, hd, writesOf_append, writesOf, writesOf_map_write]

theorem datapack_layout_witness :
    writesOf (compileModel twoBucketParams).1
      = (datapackDir twoBucketParams ++ "/pack.mcmeta", metaFileContent)
        :: ((buildFunctions twoBucketParams.commands).map (fun q =>
              (functionDir twoBucketParams ++ "/_" ++ toString q.1 ++ ".mcfunction",
               joinLines q.2))
            ++ [(functionDir twoBucketParams ++ "/main.mcfunction",
                 joinLines (mainCommandList twoBucketParams.ponder_name
                   twoBucketParams.commands))])
    ∧ functionDir twoBucketParams
      = datapackDir twoBucketParams ++ "/data/" ++ twoBucketParams.ponder_name ++ "/"
        ++ (if twoBucketParams.version then "function" else "functions")
    ∧ ((buildFunctions twoBucketParams.commands).map Prod.fst).Nodup
    ∧ (∀ t, t ∈ (buildFunctions twoBucketParams.commands).map Prod.fst
        ↔ t ∈ twoBucketParams.commands.map Prod.fst) :=
  datapack_layout twoBucketParams rfl

/-- C8.  When `shutil.make_archive` raises, the run aborts with that
exception and no `rmtree` is ever performed — the working tree survives
for a retry; when the archive call returns normally, `rmtree` of the
working tree follows it immediately and unconditionally. -/
theorem archive_failure_keeps_workdir (p : CompileParams)
    (h : (p.zip_exists && (pyLower p.answer != "y")) = false) :
    (p.archive_ok = false →
      (compileModel p).2 = CompileOutcome.archiveRaised
      ∧ ∀ d, FsEvent.rmtree d ∉ (compileModel p).1)
    ∧ (p.archive_ok = true →
      ∃ pre, (compileModel p).1
        = pre ++ [FsEvent.makeArchive (datapackDir p),
                  FsEvent.rmtree (datapackDir p)]) := by
  constructor
  · intro ha
    constructor
    · simp [compileModel, h, ha]
    · intro d
      cases hd : p.datapack_dir_exists <;>
        simp [compileModel, h, ha, hd]
  · intro ha
    refine ⟨(if p.datapack_dir_exists then [] else [FsEvent.mkdir (datapackDir p)])
      ++ [FsEvent.write (datapackDir p ++ "/pack.mcmeta") metaFileContent,
          FsEvent.mkdir (functionDir p)]
      ++ (buildFunctions p.commands).map (fun q =>
           FsEvent.write (functionDir p ++ "/_" ++ toString q.1 ++ ".mcfunction")
             (joinLines q.2))
      ++ [FsEvent.write (functionDir p ++ "/main.mcfunction")
           (joinLines (mainCommandList p.ponder_name p.commands))], ?_⟩
    by_cases he : (buildFunctions p.commands).isEmpty <;>
      simp [compileModel, h, ha, he]

theorem archive_failure_keeps_workdir_witness :
    (failArchiveParams.archive_ok = false →
      (compileModel failArchiveParams).2 = CompileOutcome.archiveRaised
      ∧ ∀ d, FsEvent.rmtree d ∉ (compileModel failArchiveParams).1)
    ∧ (failArchiveParams.archive_ok = true →
      ∃ pre, (compileModel failArchiveParams).1
        = pre ++ [FsEvent.makeArchive (datapackDir failArchiveParams),
                  FsEvent.rmtree (datapackDir failArchiveParams)]) :=
  archive_failure_keeps_workdir failArchiveParams rfl

/-- C10.  Compiling an empty command sequence ends in the `ValueError`
that `max(functions.keys())` raises at the summary step — but only after
`make_archive` and `rmtree` have already run, so the archive holding
`pack.mcmeta` and a header-only `main.mcfunction` (and no bucket file) is
still produced and the working tree is gone. -/
theorem empty_log_raises_after_archive (p : CompileParams)
    (h0 : p.commands = [])
    (h : (p.zip_exists && (pyLower p.answer != "y")) = false)
    (ha : p.archive_ok = true) :
    (compileModel p).2 = CompileOutcome.maxRaised
    ∧ (compileModel p).1
      = (if p.datapack_dir_exists then [] else [FsEvent.mkdir (datapackDir p)])
        ++ [FsEvent.write (datapackDir p ++ "/pack.mcmeta") metaFileContent,
            FsEvent.mkdir (functionDir p),
            FsEvent.write (functionDir p ++ "/main.mcfunction") generatedHeader,
            FsEvent.makeArchive (datapackDir p), FsEvent.rmtree (datapackDir p)] := by
  constructor <;>
    simp [compileModel, h0, h, ha, buildFunctions, mainCommandList, joinLines]

theorem empty_log_raises_after_archive_witness :
    (compileModel emptyLogParams).2 = CompileOutcome.maxRaised
    ∧ (compileModel emptyLogParams).1
      = (if emptyLogParams.datapack_dir_exists then []
          else [FsEvent.mkdir (datapackDir emptyLogParams)])
        ++ [FsEvent.write (datapackDir emptyLogParams ++ "/pack.mcmeta") metaFileContent,
            FsEvent.mkdir (functionDir emptyLogParams),
            FsEvent.write (functionDir emptyLogParams ++ "/main.mcfunction")
              generatedHeader,
            FsEvent.makeArchive (datapackDir emptyLogParams),
            FsEvent.rmtree (datapackDir emptyLogParams)] :=
  empty_log_raises_after_archive emptyLogParams rfl rfl rfl
